import Mathlib

/-!
Verification development for the grading assistant in `app.py`.

Text is modelled as `List Char`.  Python string operations are embedded as
executable Lean functions on character lists:

* `str.strip()`            → `pyStrip` (ASCII whitespace, the set matched by
                             the regex class \s restricted to ASCII);
* `str.find(sub)`          → `findSub` (`Option Nat` instead of the -1
                             sentinel);
* slicing `s[:k]`, `s[k:]` → `List.take` / `List.drop`;
* `re.findall(r"Score:\s*(\d+)\s*/\s*(\d+)", t)`
                           → `findScoreMatches` (left-to-right scan,
                             non-overlapping, greedy digit and whitespace
                             runs, which is what the backtracking regex
                             engine computes for this pattern);
* `int(digits)`            → `digitsVal`;
* Python `round` (nearest integer, ties to even)
                           → `pyRoundRatio` on an exact integer ratio; the
                             float expression `(earned / possible) * 100` is
                             modelled exactly as the rational
                             `earned * 100 / possible`.  The lemma
                             `pyRoundRatio_eq` proves that this integer
                             computation is the half-to-even rounding
                             (`roundHalfEvenQ`) of the exact rational value.

External effects (the OpenAI calls, `json.loads`, file decoding, the Flask
session) are modelled as explicit parameters of the functions that use them.
-/

/-- ASCII whitespace, the characters Python `str.strip` and the regex class
\s agree on for ASCII text. -/
def isPySpace (c : Char) : Bool :=
  c = ' ' || c = '\t' || c = '\n' || c = '\r' || c = '\x0b' || c = '\x0c'

/-- Embedding of Python `str.strip()`: drop leading and trailing whitespace. -/
def pyStrip (l : List Char) : List Char :=
  ((l.dropWhile isPySpace).reverse.dropWhile isPySpace).reverse

/-- Helper for `findSub`: scan the haystack, returning the index of the first
position where the needle is a prefix. -/
def findSubAux (needle : List Char) : List Char → Nat → Option Nat
  | [], i => if needle.isPrefixOf ([] : List Char) then some i else none
  | l@(_ :: tl), i =>
      if needle.isPrefixOf l then some i else findSubAux needle tl (i + 1)

/-- Embedding of Python `haystack.find(needle)`; `none` models -1. -/
def findSub (hay needle : List Char) : Option Nat :=
  findSubAux needle hay 0

/-- The literal marker `"Student Summary:"` from `app.py`. -/
def studentMarker : List Char := "Student Summary:".toList

/-- The literal marker `"Overall Teacher Comment:"` that the grading prompt
mandates (it is never searched for by the code; it is used here only to state
spec-side properties). -/
def otcMarker : List Char := "Overall Teacher Comment:".toList

/-- The fixed fallback sentence returned by `extract_student_summary` when the
marker is absent, concatenated exactly as the three adjacent string literals
in the source. -/
def fallbackSentence : List Char :=
  ("You completed meaningful work and demonstrated growing skill. " ++
   "Keep practicing and refining your logic, and use this feedback as a guide " ++
   "for your next draft.").toList

/-- Embedding of `extract_student_summary` from `app.py`. -/
def extract_student_summary (feedback_text : List Char) : List Char :=
  match findSub feedback_text studentMarker with
  | none => fallbackSentence
  | some idx => pyStrip (feedback_text.drop (idx + studentMarker.length))

/-- Embedding of `strip_student_summary` from `app.py`. -/
def strip_student_summary (feedback_text : List Char) : List Char :=
  match findSub feedback_text studentMarker with
  | none => pyStrip feedback_text
  | some idx => pyStrip (feedback_text.take idx)

/-- ASCII decimal digit, the regex class \d on ASCII text. -/
def isDigitCh (c : Char) : Bool := c.isDigit

/-- Embedding of `int` applied to a non-empty string of decimal digits. -/
def digitsVal (ds : List Char) : Nat :=
  ds.foldl (fun a c => a * 10 + (c.toNat - '0'.toNat)) 0

/-- Try to match the regex `Score:\s*(\d+)\s*/\s*(\d+)` at the head of `l`.
On success, return the two captured numbers and the remainder of the text
after the match.  For this pattern, the backtracking engine is equivalent to
greedy maximal munch: a digit is neither whitespace nor a slash, so no
backtracking into `\d+` or `\s*` can ever succeed. -/
def matchScoreAt (l : List Char) : Option (Nat × Nat × List Char) :=
  if "Score:".toList.isPrefixOf l then
    let l1 := (l.drop 6).dropWhile isPySpace
    let d1 := l1.takeWhile isDigitCh
    if d1.isEmpty then none else
    match (l1.dropWhile isDigitCh).dropWhile isPySpace with
    | c :: l3 =>
        if c = '/' then
          let l3s := l3.dropWhile isPySpace
          let d2 := l3s.takeWhile isDigitCh
          if d2.isEmpty then none
          else some (digitsVal d1, digitsVal d2, l3s.dropWhile isDigitCh)
        else none
    | [] => none
  else none

/-- Fuel-indexed scanner: at each position try `matchScoreAt`; on success emit
the captured pair and resume after the match, otherwise advance one
character.  Each step strictly shortens the text, so fuel equal to the length
of the text never runs out. -/
def scanScores : Nat → List Char → List (Nat × Nat)
  | 0, _ => []
  | fuel + 1, l =>
      match matchScoreAt l with
      | some (a, b, rest) => (a, b) :: scanScores fuel rest
      | none =>
          match l with
          | [] => []
          | _ :: tl => scanScores fuel tl

/-- All matches of `Score:\s*(\d+)\s*/\s*(\d+)` in the text, in order of
appearance: the embedding of `re.findall` for this pattern. -/
def findScoreMatches (l : List Char) : List (Nat × Nat) :=
  scanScores l.length l

/-- Embedding of `extract_scores` from `app.py`: the loop accumulating
`total_earned` and `total_possible` over the regex matches. -/
def extract_scores (feedback_text : List Char) : Nat × Nat :=
  (findScoreMatches feedback_text).foldl
    (fun acc m => (acc.1 + m.1, acc.2 + m.2)) (0, 0)

/-- Python `round` applied to the exact ratio `n / d` with `d > 0`: the
nearest integer, ties going to the even neighbour, computed with integer
arithmetic (`n / d` on `ℤ` is Euclidean division, which is the floor for a
positive divisor, and `2 * (n - n / d * d)` compares the doubled remainder
with the denominator). -/
def pyRoundRatio (n d : ℤ) : ℤ :=
  if 2 * (n - n / d * d) < d then n / d
  else if d < 2 * (n - n / d * d) then n / d + 1
  else if (n / d) % 2 = 0 then n / d else n / d + 1

/-- Half-to-even rounding of a rational, stated with `Int.floor` and
`Int.fract`: the specification-level description of Python `round`. -/
def roundHalfEvenQ (q : ℚ) : ℤ :=
  if Int.fract q < 1 / 2 then ⌊q⌋
  else if 1 / 2 < Int.fract q then ⌊q⌋ + 1
  else if ⌊q⌋ % 2 = 0 then ⌊q⌋ else ⌊q⌋ + 1

/-- Embedding of the score-line computation in the `grade` view
(`percent = round((earned / possible) * 100)` and the two f-strings),
as a function of the raw feedback text.  The float division is modelled
exactly: the rounded value is `pyRoundRatio (earned * 100) possible`. -/
def score_line (full_feedback : List Char) : List Char :=
  if 0 < (extract_scores full_feedback).2 then
    ("Your Score: " ++ toString (extract_scores full_feedback).1 ++ " / " ++
     toString (extract_scores full_feedback).2 ++ " (" ++
     toString (pyRoundRatio (((extract_scores full_feedback).1 : ℤ) * 100)
       ((extract_scores full_feedback).2 : ℤ)) ++ "%)").toList
  else
    "Your Score: N/A".toList

/-- The shape of one rubric criterion, as produced by `parse_rubric_to_json`. -/
structure RubricCriterion where
  criterion : List Char
  description : List Char
  points : Nat
  requirements : List (List Char)
deriving DecidableEq

/-- The deterministic fallback criterion built in the `except` branch of
`parse_rubric_to_json`: the whole rubric as one 100-point criterion, with the
trimmed rubric text truncated to 1000 characters as the single requirement. -/
def fallbackCriterion (rubric_text : List Char) : RubricCriterion :=
  { criterion := "Overall Rubric".toList
    description := "Entire rubric treated as one criterion.".toList
    points := 100
    requirements := [(pyStrip rubric_text).take 1000] }

/-- Embedding of the post-oracle part of `parse_rubric_to_json`.  The oracle
call, the access `response.output[0].content[0].text`, `json.loads` and the
wrapping of a single JSON object into a one-element list are external
library effects, modelled together as the `parsed` parameter: `some cs` when
that whole `try` block succeeds with criteria list `cs`, `none` when any part
of it raises. -/
def parse_rubric_to_json (parsed : Option (List RubricCriterion))
    (rubric_text : List Char) : List RubricCriterion :=
  match parsed with
  | some cs => cs
  | none => [fallbackCriterion rubric_text]

/-- Outcome of one POST to the `grade` view, after the rubric/student checks:
either an error message is rendered, or the two oracle calls run with the
given rubric and student text. -/
inductive GradeOutcome
  | failure (msg : List Char)
  | graded (rubric_used : List Char) (student_used : List Char)
deriving DecidableEq

/-- The oracle (OpenAI) is invoked exactly on the `graded` path. -/
def oracleCalled : GradeOutcome → Bool
  | .graded _ _ => true
  | _ => false

/-- The error message for a missing rubric in `grade`. -/
def errNoRubric : List Char :=
  "Please provide a rubric (either text or file).".toList

/-- The error message for missing student work in `grade`. -/
def errNoStudent : List Char :=
  "Please provide student work (either text or file).".toList

/-- The rubric text after the form field is stripped and an uploaded file,
when present, replaces it (the file text is used unstripped, exactly as in
the source). -/
def effRubricText (rubricForm : List Char) (rubricFile : Option (List Char)) :
    List Char :=
  match rubricFile with
  | some ft => ft
  | none => pyStrip rubricForm

/-- The student text after the form field is stripped and an uploaded file,
when present, replaces it. -/
def effStudentText (studentForm : List Char) (studentFile : Option (List Char)) :
    List Char :=
  match studentFile with
  | some ft => ft
  | none => pyStrip studentForm

/-- The session value after the conditional cache write. -/
def newSessionRubric (sessionRubric : Option (List Char))
    (rubricForm : List Char) (rubricFile : Option (List Char)) :
    Option (List Char) :=
  if (effRubricText rubricForm rubricFile).isEmpty then sessionRubric
  else some (effRubricText rubricForm rubricFile)

/-- Embedding of the rubric-caching and validation logic of the POST branch of
the `grade` view (lines 242-274 of `app.py`).  `sessionRubric` is the value
stored under `session["rubric_text"]` (`none` when the key is absent; the
`session.get(..., "")` default is modelled by `Option.getD []`).  File
uploads are modelled by the text their successful extraction yields
(`read_file_to_text` is a pure external decoder; a raised decoding error
aborts before this logic and is outside this function).  The cache is
written only when the resulting rubric text is non-empty, which is Python
truthiness of the string. -/
def grade_post (sessionRubric : Option (List Char))
    (rubricForm studentForm : List Char)
    (rubricFile studentFile : Option (List Char)) :
    Option (List Char) × GradeOutcome :=
  let session' := newSessionRubric sessionRubric rubricForm rubricFile
  let cached := session'.getD []
  if cached.isEmpty then (session', .failure errNoRubric)
  else if (effStudentText studentForm studentFile).isEmpty then
    (session', .failure errNoStudent)
  else (session', .graded cached (effStudentText studentForm studentFile))

/-- Claim-side definition for the teacher report, following the words of the
spec: everything before the first `Overall Teacher Comment:` marker, with the
student-summary segment (the first `Student Summary:` marker and everything
after it) removed, trimmed.  It is compared against what the code actually
renders, namely `strip_student_summary`. -/
def teacherReportSpec (t : List Char) : List Char :=
  let noSummary := match findSub t studentMarker with
    | none => t
    | some i => t.take i
  match findSub noSummary otcMarker with
  | none => pyStrip noSummary
  | some i => pyStrip (noSummary.take i)

/-! ### Lemmas about `pyStrip` -/

lemma dropWhile_head_false {p : Char → Bool} :
    ∀ {l : List Char} {c : Char} {rest : List Char},
      l.dropWhile p = c :: rest → p c = false
  | [], _, _, h => by simp [List.dropWhile] at h
  | a :: tl, c, rest, h => by
      rw [List.dropWhile_cons] at h
      split at h
      · exact dropWhile_head_false h
      · next hp =>
          cases h
          simpa using hp

lemma dropWhile_self (p : Char → Bool) (l : List Char) :
    (l.dropWhile p).dropWhile p = l.dropWhile p := by
  cases h : l.dropWhile p with
  | nil => simp
  | cons c rest => simp [List.dropWhile_cons, dropWhile_head_false h]

lemma pyStrip_reverse_eq (l : List Char) :
    (pyStrip l).reverse = ((l.dropWhile isPySpace).reverse).dropWhile isPySpace := by
  simp [pyStrip]

lemma pyStrip_prefix_dropWhile (l : List Char) :
    pyStrip l <+: l.dropWhile isPySpace := by
  have h := List.reverse_prefix.mpr
    ( List.dropWhile_suffix (l := (l.dropWhile isPySpace).reverse) isPySpace)
  simpa [pyStrip] using h

lemma pyStrip_within (l : List Char) : pyStrip l <:+: l :=
  (pyStrip_prefix_dropWhile l).isInfix.trans
    ( List.dropWhile_suffix isPySpace).isInfix

lemma pyStrip_head_false {l : List Char} {c : Char} {rest : List Char}
    (h : pyStrip l = c :: rest) : isPySpace c = false := by
  obtain ⟨tl, htl⟩ := pyStrip_prefix_dropWhile l
  rw [h] at htl
  exact dropWhile_head_false htl.symm

lemma pyStrip_idem (l : List Char) : pyStrip (pyStrip l) = pyStrip l := by
  have h1 : (pyStrip l).dropWhile isPySpace = pyStrip l := by
    cases h : pyStrip l with
    | nil => simp
    | cons c rest => simp [List.dropWhile_cons, pyStrip_head_false h]
  have h2 : pyStrip (pyStrip l) =
      (((pyStrip l).dropWhile isPySpace).reverse.dropWhile isPySpace).reverse := rfl
  rw [h2, h1, pyStrip_reverse_eq, dropWhile_self, ← pyStrip_reverse_eq,
    List.reverse_reverse]

lemma pyStrip_nil_of_all {l : List Char} (h : ∀ c ∈ l, isPySpace c = true) :
    pyStrip l = [] := by
  have h1 : l.dropWhile isPySpace = [] := List.dropWhile_eq_nil_iff.mpr h
  simp [pyStrip, h1]

/-! ### Lemmas about `findSub`: it returns the least occurrence index -/

lemma occ_lt_length {t n : List Char} {j : Nat} (hn : n ≠ [])
    (h : n <+: t.drop j) : j < t.length := by
  by_contra hle
  push_neg at hle
  rw [List.drop_eq_nil_of_le hle] at h
  exact hn (List.prefix_nil.mp h)

lemma findSubAux_some {n : List Char} {hay : List Char} :
    ∀ {i r : Nat}, findSubAux n hay i = some r →
      ∃ k, r = i + k ∧ n <+: hay.drop k ∧ ∀ j < k, ¬ n <+: hay.drop j := by
  induction hay with
  | nil =>
      intro i r h
      simp only [findSubAux] at h
      split at h
      · next hp =>
          injection h with h
          refine ⟨0, by omega, ?_, by omega⟩
          simpa using List.isPrefixOf_iff_prefix.mp hp
      · exact absurd h (by simp)
  | cons a tl ih =>
      intro i r h
      simp only [findSubAux] at h
      split at h
      · next hp =>
          injection h with h
          exact ⟨0, by omega,
            by simpa using List.isPrefixOf_iff_prefix.mp hp, by omega⟩
      · next hp =>
          obtain ⟨k, hk, hocc, hmin⟩ := ih h
          refine ⟨k + 1, by omega, by simpa [List.drop_succ_cons] using hocc, ?_⟩
          intro j hj
          cases j with
          | zero =>
              simp only [List.drop_zero]
              exact fun hc => hp (List.isPrefixOf_iff_prefix.mpr hc)
          | succ j' =>
              have h5 := hmin j' (by omega)
              simpa [List.drop_succ_cons] using h5

lemma findSubAux_none {n : List Char} {hay : List Char} :
    ∀ {i : Nat}, findSubAux n hay i = none → ∀ j, ¬ n <+: hay.drop j := by
  induction hay with
  | nil =>
      intro i h j
      simp only [findSubAux] at h
      split at h
      · exact absurd h (by simp)
      · next hp =>
          simp only [List.drop_nil]
          exact fun hc => hp (List.isPrefixOf_iff_prefix.mpr hc)
  | cons a tl ih =>
      intro i h j
      simp only [findSubAux] at h
      split at h
      · exact absurd h (by simp)
      · next hp =>
          cases j with
          | zero =>
              simp only [List.drop_zero]
              exact fun hc => hp (List.isPrefixOf_iff_prefix.mpr hc)
          | succ j' =>
              simpa [List.drop_succ_cons] using ih h j'

lemma findSub_eq_none {t n : List Char} (h : ∀ j, ¬ n <+: t.drop j) :
    findSub t n = none := by
  cases hf : findSub t n with
  | none => rfl
  | some r =>
      obtain ⟨k, _, hocc, _⟩ := findSubAux_some (by simpa [findSub] using hf)
      exact absurd hocc (h k)

lemma findSub_some_spec {t n : List Char} {k : Nat}
    (h : findSub t n = some k) :
    n <+: t.drop k ∧ ∀ j < k, ¬ n <+: t.drop j := by
  obtain ⟨k', hk', hocc, hmin⟩ := findSubAux_some (by simpa [findSub] using h)
  have he : k = k' := by omega
  subst he
  exact ⟨hocc, hmin⟩

lemma findSub_eq_some_of {t n : List Char} {k : Nat} (hocc : n <+: t.drop k)
    (hmin : ∀ j < k, ¬ n <+: t.drop j) : findSub t n = some k := by
  cases hf : findSub t n with
  | none => exact absurd hocc (findSubAux_none (by simpa [findSub] using hf) k)
  | some r =>
      obtain ⟨hocc', hmin'⟩ := findSub_some_spec hf
      have he : r = k := by
        rcases Nat.lt_trichotomy r k with h1 | h1 | h1
        · exact absurd hocc' (hmin r h1)
        · exact h1
        · exact absurd hocc (hmin' k h1)
      rw [he]

lemma no_occ_of_bounded {t n : List Char} (hn : n ≠ [])
    (h : ∀ j < t.length, ¬ n <+: t.drop j) : ∀ j, ¬ n <+: t.drop j :=
  fun j hc => h j (occ_lt_length hn hc) hc

lemma studentMarker_ne_nil : studentMarker ≠ [] := by decide

/-! ### Branch equations for the two marker-splitting functions -/

lemma extract_of_findSub_none {t : List Char}
    (h : findSub t studentMarker = none) :
    extract_student_summary t = fallbackSentence := by
  simp [extract_student_summary, h]

lemma extract_of_findSub_some {t : List Char} {k : Nat}
    (h : findSub t studentMarker = some k) :
    extract_student_summary t = pyStrip (t.drop (k + studentMarker.length)) := by
  simp [extract_student_summary, h]

lemma strip_of_findSub_none {t : List Char}
    (h : findSub t studentMarker = none) :
    strip_student_summary t = pyStrip t := by
  simp [strip_student_summary, h]

lemma strip_of_findSub_some {t : List Char} {k : Nat}
    (h : findSub t studentMarker = some k) :
    strip_student_summary t = pyStrip (t.take k) := by
  simp [strip_student_summary, h]

/-! ### Occurrences survive passage to sublists -/

lemma occ_of_infix {x t n : List Char} (hinf : x <:+: t) {j : Nat}
    (h : n <+: x.drop j) : ∃ j', n <+: t.drop j' := by
  obtain ⟨s, u, hsu⟩ := hinf
  by_cases hj : j ≤ x.length
  · refine ⟨s.length + j, ?_⟩
    have h1 : t.drop (s.length + j) = x.drop j ++ u := by
      rw [← hsu, List.append_assoc, List.drop_append,
        List.drop_append_of_le_length hj]
    rw [h1]
    exact h.trans ( List.prefix_append _ _)
  · have hx : x.drop j = [] := List.drop_eq_nil_of_le (by omega)
    rw [hx] at h
    have hn : n = [] := List.prefix_nil.mp h
    exact ⟨0, by simp [hn]⟩

lemma occ_take {t n : List Char} {k j : Nat} (hn : n ≠ [])
    (h : n <+: (t.take k).drop j) : n <+: t.drop j ∧ j < k := by
  have hk : j < k := by
    by_contra hge
    push_neg at hge
    have hnil : (t.take k).drop j = [] := by
      refine List.drop_eq_nil_of_le ?_
      rw [List.length_take]
      omega
    rw [hnil] at h
    exact hn (List.prefix_nil.mp h)
  refine ⟨?_, hk⟩
  have h2 : (t.take k).drop j <+: t.drop j := by
    rw [List.drop_take]
    exact List.take_prefix _ _
  exact h.trans h2

/-- The output of `strip_student_summary` never contains the marker. -/
lemma strip_no_marker (t : List Char) :
    ∀ j, ¬ studentMarker <+: (strip_student_summary t).drop j := by
  intro j hc
  cases hf : findSub t studentMarker with
  | none =>
      rw [strip_of_findSub_none hf] at hc
      obtain ⟨j', hj'⟩ := occ_of_infix (pyStrip_within t) hc
      exact findSubAux_none (by simpa [findSub] using hf) j' hj'
  | some k =>
      rw [strip_of_findSub_some hf] at hc
      obtain ⟨j', hj'⟩ := occ_of_infix (pyStrip_within (t.take k)) hc
      obtain ⟨hocc, hlt⟩ := occ_take studentMarker_ne_nil hj'
      exact (findSub_some_spec hf).2 j' hlt hocc

/-! ### Summation lemma for the score-tally fold -/

lemma foldl_pair_sum (ms : List (Nat × Nat)) :
    ∀ a b : Nat,
      ms.foldl (fun acc m => (acc.1 + m.1, acc.2 + m.2)) (a, b) =
        (a + (ms.map Prod.fst).sum, b + (ms.map Prod.snd).sum) := by
  induction ms with
  | nil => intro a b; simp
  | cons m tl ih =>
      intro a b
      simp [List.foldl_cons, ih, Nat.add_assoc]

/-! ### Claim theorems -/

/-- C1: for every input text, `extract_scores` returns the pair of the sum of
all first captures and the sum of all second captures over every occurrence
of the pattern `Score:` integer slash integer (whitespace-tolerant), the
occurrences being `findScoreMatches`; with zero occurrences it returns
`(0, 0)`. -/
theorem extract_scores_eq_sums (t : List Char) :
    extract_scores t =
      (((findScoreMatches t).map Prod.fst).sum,
       ((findScoreMatches t).map Prod.snd).sum) ∧
    (findScoreMatches t = [] → extract_scores t = (0, 0)) := by
  have h : extract_scores t =
      (((findScoreMatches t).map Prod.fst).sum,
       ((findScoreMatches t).map Prod.snd).sum) := by
    simp only [extract_scores]
    rw [foldl_pair_sum]
    simp
  exact ⟨h, fun h0 => by simp [extract_scores, h0]⟩

/-- C1 witness: a text with no score line tallies to `(0, 0)`. -/
theorem extract_scores_eq_sums_witness :
    extract_scores ("well done, no numeric grades".toList) = (0, 0) :=
  (extract_scores_eq_sums _).2 (by decide)

/-- C3: for a text with exactly one occurrence of the marker (at index `k`),
the text decomposes as prefix, marker, suffix, and
`strip_student_summary t ++ marker ++ extract_student_summary t` is the same
decomposition with the two pieces trimmed: the two functions partition the
text exactly at the marker. -/
theorem summary_partition (t : List Char) (k : Nat)
    (hocc : studentMarker <+: t.drop k)
    (huniq : ∀ j < t.length, studentMarker <+: t.drop j → j = k) :
    t = t.take k ++ studentMarker ++ t.drop (k + studentMarker.length) ∧
    strip_student_summary t ++ studentMarker ++ extract_student_summary t =
      pyStrip (t.take k) ++ studentMarker ++
        pyStrip (t.drop (k + studentMarker.length)) := by
  have hmin : ∀ j < k, ¬ studentMarker <+: t.drop j := by
    intro j hj hc
    have := huniq j (occ_lt_length studentMarker_ne_nil hc) hc
    omega
  have hf : findSub t studentMarker = some k := findSub_eq_some_of hocc hmin
  obtain ⟨rest, hrest⟩ := hocc
  have hdrop : t.drop (k + studentMarker.length) = rest := by
    rw [← List.drop_drop, ← hrest, List.drop_left]
  constructor
  · conv_lhs => rw [← List.take_append_drop k t, ← hrest]
    rw [hdrop, List.append_assoc]
  · rw [strip_of_findSub_some hf, extract_of_findSub_some hf]

/-- C3 witness: the partition at the unique marker of a concrete text. -/
theorem summary_partition_witness :
    "ab Student Summary: ok".toList =
        "ab Student Summary: ok".toList.take 3 ++ studentMarker ++
          "ab Student Summary: ok".toList.drop (3 + studentMarker.length) ∧
      strip_student_summary "ab Student Summary: ok".toList ++ studentMarker ++
          extract_student_summary "ab Student Summary: ok".toList =
        pyStrip ("ab Student Summary: ok".toList.take 3) ++ studentMarker ++
          pyStrip ("ab Student Summary: ok".toList.drop
            (3 + studentMarker.length)) :=
  summary_partition _ 3 (by decide) (by decide)

/-- C6: for a text in which the marker nowhere occurs,
`extract_student_summary` returns the fixed non-empty fallback sentence and
`strip_student_summary` returns the trimmed input. -/
theorem marker_absent_behavior (t : List Char)
    (h : ∀ j < t.length, ¬ studentMarker <+: t.drop j) :
    extract_student_summary t = fallbackSentence ∧
    strip_student_summary t = pyStrip t ∧
    fallbackSentence ≠ [] := by
  have hf : findSub t studentMarker = none :=
    findSub_eq_none (no_occ_of_bounded studentMarker_ne_nil h)
  exact ⟨extract_of_findSub_none hf, strip_of_findSub_none hf, by decide⟩

/-- C6 witness: concrete marker-free text. -/
theorem marker_absent_behavior_witness :
    extract_student_summary ("great essay".toList) = fallbackSentence ∧
    strip_student_summary ("great essay".toList) =
      pyStrip ("great essay".toList) ∧
    fallbackSentence ≠ [] :=
  marker_absent_behavior _ (by decide)

/-- C9: `strip_student_summary` is idempotent: its output never contains the
marker and is already trimmed. -/
theorem strip_student_summary_idem (t : List Char) :
    strip_student_summary (strip_student_summary t) =
      strip_student_summary t := by
  have hno : findSub (strip_student_summary t) studentMarker = none :=
    findSub_eq_none (strip_no_marker t)
  rw [strip_of_findSub_none hno]
  cases hf : findSub t studentMarker with
  | none => rw [strip_of_findSub_none hf, pyStrip_idem]
  | some k => rw [strip_of_findSub_some hf, pyStrip_idem]

/-- C10: when the marker is present and followed only by whitespace,
`extract_student_summary` returns the empty string; the fallback branch is
taken only on a (case-sensitively) absent marker, so a lowercase variant of
the marker still yields the fallback sentence. -/
theorem whitespace_summary_empty :
    (∀ (t : List Char) (k : Nat), findSub t studentMarker = some k →
        (∀ c ∈ t.drop (k + studentMarker.length), isPySpace c = true) →
        extract_student_summary t = []) ∧
    extract_student_summary ("student summary: good work".toList) =
      fallbackSentence := by
  constructor
  · intro t k hf hsp
    rw [extract_of_findSub_some hf, pyStrip_nil_of_all hsp]
  · decide

/-- C10 witness: marker followed by whitespace only yields the empty
summary. -/
theorem whitespace_summary_empty_witness :
    extract_student_summary ("Student Summary: \n\t ".toList) = [] :=
  whitespace_summary_empty.1 _ 0 (by decide) (by decide)

lemma pyRoundRatio_eq (n : ℤ) (d : ℕ) (hd : 0 < d) :
    pyRoundRatio n d = roundHalfEvenQ ((n : ℚ) / (d : ℚ)) := by
  have hdq : ((d : ℚ)) ≠ 0 := by exact_mod_cast hd.ne'
  have hdq0 : (0 : ℚ) < (d : ℚ) := by exact_mod_cast hd
  have hfloor : ⌊(n : ℚ) / (d : ℚ)⌋ = n / (d : ℤ) := by
    exact_mod_cast Rat.floor_intCast_div_natCast n d
  have hrem : n - n / (d : ℤ) * (d : ℤ) = n % (d : ℤ) := by
    rw [Int.emod_def]; ring
  have hfract : Int.fract ((n : ℚ) / (d : ℚ)) =
      ((n % (d : ℤ) : ℤ) : ℚ) / (d : ℚ) := by
    rw [Int.fract, hfloor, Int.emod_def]
    push_cast
    field_simp
  have key1 : Int.fract ((n : ℚ) / (d : ℚ)) < 1 / 2 ↔
      2 * (n % (d : ℤ)) < (d : ℤ) := by
    rw [hfract,
      show (2 * (n % (d : ℤ)) < (d : ℤ)) ↔
          ((2 * (n % (d : ℤ)) : ℤ) : ℚ) < (((d : ℤ) : ℤ) : ℚ) from by
        exact_mod_cast Iff.rfl]
    push_cast
    rw [div_lt_div_iff₀ hdq0 (by norm_num : (0 : ℚ) < 2)]
    constructor <;> intro h <;> linarith
  have key2 : 1 / 2 < Int.fract ((n : ℚ) / (d : ℚ)) ↔
      (d : ℤ) < 2 * (n % (d : ℤ)) := by
    rw [hfract,
      show ((d : ℤ) < 2 * (n % (d : ℤ))) ↔
          (((d : ℤ) : ℤ) : ℚ) < ((2 * (n % (d : ℤ)) : ℤ) : ℚ) from by
        exact_mod_cast Iff.rfl]
    push_cast
    rw [div_lt_div_iff₀ (by norm_num : (0 : ℚ) < 2) hdq0]
    constructor <;> intro h <;> linarith
  simp only [pyRoundRatio, roundHalfEvenQ, hfloor, hrem]
  rcases lt_trichotomy (2 * (n % (d : ℤ))) ((d : ℕ) : ℤ) with h | h | h
  · rw [if_pos h, if_pos (key1.mpr h)]
  · have hn1 : ¬ 2 * (n % (d : ℤ)) < (d : ℤ) := by omega
    have hn2 : ¬ ((d : ℤ)) < 2 * (n % (d : ℤ)) := by omega
    have k1 : ¬ Int.fract ((n : ℚ) / (d : ℚ)) < 1 / 2 := by rw [key1]; omega
    have k2 : ¬ 1 / 2 < Int.fract ((n : ℚ) / (d : ℚ)) := by rw [key2]; omega
    rw [if_neg hn1, if_neg hn2, if_neg k1, if_neg k2]
  · have hn1 : ¬ 2 * (n % (d : ℤ)) < (d : ℤ) := by omega
    have k1 : ¬ Int.fract ((n : ℚ) / (d : ℚ)) < 1 / 2 := by rw [key1]; omega
    rw [if_neg hn1, if_pos h, if_neg k1, if_pos (key2.mpr h)]

/-- A concrete raw feedback text used to settle C2: a criterion block, an
overall-teacher-comment block, then the student summary. -/
def c2text : List Char :=
  ("Criterion: X (5 points) Score: 4/5 Overall Teacher Comment: Solid work. " ++
   "Student Summary: Nice effort.").toList

/-- C2 counterexample: on `c2text` the teacher report the code produces is
everything before the `Student Summary:` marker, which still contains the
`Overall Teacher Comment:` block; it differs from the claimed report, namely
everything before the `Overall Teacher Comment:` marker with the
student-summary segment removed. -/
theorem strip_keeps_otc_cex :
    strip_student_summary c2text =
      ("Criterion: X (5 points) Score: 4/5 Overall Teacher Comment: " ++
        "Solid work.").toList ∧
    (findSub (strip_student_summary c2text) otcMarker).isSome = true ∧
    teacherReportSpec c2text =
      "Criterion: X (5 points) Score: 4/5".toList ∧
    strip_student_summary c2text ≠ teacherReportSpec c2text := by
  refine ⟨by decide, by decide, by decide, by decide⟩

/-- C2 (amended): the teacher report the postprocessor produces is everything
before the first `Student Summary:` marker, trimmed; in particular the
`Overall Teacher Comment:` block stays inside the teacher report. -/
theorem strip_student_summary_before_marker (t : List Char) (k : Nat)
    (hocc : studentMarker <+: t.drop k)
    (hmin : ∀ j < k, ¬ studentMarker <+: t.drop j) :
    strip_student_summary t = pyStrip (t.take k) :=
  strip_of_findSub_some (findSub_eq_some_of hocc hmin)

/-- C2 witness: the amended description at the concrete feedback text. -/
theorem strip_student_summary_before_marker_witness :
    strip_student_summary c2text = pyStrip (c2text.take 72) :=
  strip_student_summary_before_marker _ 72 (by decide) (by decide)

/-- C4: when the oracle response cannot be parsed, `parse_rubric_to_json`
returns exactly one criterion named `Overall Rubric` worth 100 points whose
single requirement is the trimmed rubric text truncated to at most 1000
characters (a prefix of the trimmed text). -/
theorem parse_rubric_fallback (rubric_text : List Char) :
    parse_rubric_to_json none rubric_text = [fallbackCriterion rubric_text] ∧
    (parse_rubric_to_json none rubric_text).length = 1 ∧
    (fallbackCriterion rubric_text).criterion = "Overall Rubric".toList ∧
    (fallbackCriterion rubric_text).points = 100 ∧
    (fallbackCriterion rubric_text).requirements =
      [(pyStrip rubric_text).take 1000] ∧
    ((pyStrip rubric_text).take 1000).length ≤ 1000 ∧
    (pyStrip rubric_text).take 1000 <+: pyStrip rubric_text := by
  refine ⟨rfl, rfl, rfl, rfl, rfl, ?_, List.take_prefix _ _⟩
  rw [List.length_take]
  exact min_le_left _ _

/-- C5 counterexample: at the single score line `Score: 1/8` the code reports
12 percent, because Python `round` takes the tie 12.5 to the even neighbour,
while standard rounding of 100 × 1 / 8 = 12.5 gives 13; so the reported
percent is not `round(100 × earned / possible)` under standard (half-up /
half-away-from-zero) rounding. -/
theorem score_line_standard_rounding_cex :
    score_line ("Score: 1/8".toList) = "Your Score: 1 / 8 (12%)".toList ∧
    round ((100 * (1 : ℚ)) / 8) = 13 ∧
    score_line ("Score: 1/8".toList) ≠
      ("Your Score: 1 / 8 (" ++ toString (round ((100 * (1 : ℚ)) / 8)) ++
        "%)").toList := by
  have hr : round ((100 * (1 : ℚ)) / 8) = 13 := by
    rw [round_eq]; norm_num
  refine ⟨by decide, hr, ?_⟩
  rw [hr]
  decide

/-- C5 (amended): whenever the tallied `possible` is positive, the reported
percent is the half-to-even rounding (Python `round`) of
100 × earned / possible, so (23, 30) still yields 77 while the tie (1, 8)
yields 12; whenever `possible` is zero the score line is `Your Score: N/A`
and no division is attempted. -/
theorem score_line_percent (t : List Char) :
    (0 < (extract_scores t).2 →
      score_line t =
        ("Your Score: " ++ toString (extract_scores t).1 ++ " / " ++
         toString (extract_scores t).2 ++ " (" ++
         toString (roundHalfEvenQ
           ((100 * ((extract_scores t).1 : ℚ)) /
             ((extract_scores t).2 : ℚ))) ++ "%)").toList) ∧
    ((extract_scores t).2 = 0 → score_line t = "Your Score: N/A".toList) := by
  constructor
  · intro hp
    have h1 : pyRoundRatio (((extract_scores t).1 : ℤ) * 100)
        ((extract_scores t).2 : ℤ) =
        roundHalfEvenQ ((((extract_scores t).1 : ℤ) * 100 : ℤ) /
          ((extract_scores t).2 : ℚ)) :=
      pyRoundRatio_eq _ _ hp
    have h2 : ((((extract_scores t).1 : ℤ) * 100 : ℤ) : ℚ) /
        ((extract_scores t).2 : ℚ) =
        (100 * ((extract_scores t).1 : ℚ)) / ((extract_scores t).2 : ℚ) := by
      push_cast
      ring
    simp only [score_line, if_pos hp]
    rw [h1, h2]
  · intro h0
    simp [score_line, h0]

/-- C5 witness: the worked example from the spec, tallied from a feedback
text with one `Score: 23/30` line. -/
theorem score_line_percent_witness :
    (score_line ("Score: 23/30".toList) =
      ("Your Score: " ++ toString (extract_scores ("Score: 23/30".toList)).1 ++
       " / " ++ toString (extract_scores ("Score: 23/30".toList)).2 ++ " (" ++
       toString (roundHalfEvenQ
         ((100 * ((extract_scores ("Score: 23/30".toList)).1 : ℚ)) /
           ((extract_scores ("Score: 23/30".toList)).2 : ℚ))) ++
       "%)").toList) ∧
    score_line ("Score: 23/30".toList) = "Your Score: 23 / 30 (77%)".toList :=
  ⟨(score_line_percent _).1 (by decide), by decide⟩

/-- C7: a POST with an empty (after trimming) rubric text field, no rubric
file and no cached session rubric renders exactly the missing-rubric error
and never reaches the oracle calls. -/
theorem empty_rubric_error (rubricForm studentForm : List Char)
    (studentFile : Option (List Char)) (h : pyStrip rubricForm = []) :
    grade_post none rubricForm studentForm none studentFile =
      (none, GradeOutcome.failure errNoRubric) ∧
    oracleCalled
      (grade_post none rubricForm studentForm none studentFile).2 = false := by
  have heq : grade_post none rubricForm studentForm none studentFile =
      (none, GradeOutcome.failure errNoRubric) := by
    simp [grade_post, newSessionRubric, effRubricText, h]
  exact ⟨heq, by rw [heq]; rfl⟩

/-- C7 witness: a whitespace-only rubric field with no cached rubric. -/
theorem empty_rubric_error_witness :
    grade_post none "   ".toList "essay".toList none none =
      (none, GradeOutcome.failure errNoRubric) :=
  (empty_rubric_error _ _ none (by decide)).1

/-- C8: the cached rubric is written only when the request supplies a
non-empty rubric, in which case it is fully replaced by the new text; when no
rubric is supplied the session value is untouched, and any grading run uses
exactly the cached value (which, when nothing was supplied, is the
pre-existing session rubric). -/
theorem rubric_cache_frame (sessionRubric : Option (List Char))
    (rubricForm studentForm : List Char)
    (rubricFile studentFile : Option (List Char)) :
    (effRubricText rubricForm rubricFile ≠ [] →
      (grade_post sessionRubric rubricForm studentForm rubricFile
          studentFile).1 = some (effRubricText rubricForm rubricFile)) ∧
    (effRubricText rubricForm rubricFile = [] →
      (grade_post sessionRubric rubricForm studentForm rubricFile
          studentFile).1 = sessionRubric) ∧
    (∀ r s, (grade_post sessionRubric rubricForm studentForm rubricFile
          studentFile).2 = GradeOutcome.graded r s →
      (grade_post sessionRubric rubricForm studentForm rubricFile
          studentFile).1 = some r ∧
      (effRubricText rubricForm rubricFile = [] → sessionRubric = some r)) := by
  have hfst : (grade_post sessionRubric rubricForm studentForm rubricFile
      studentFile).1 = newSessionRubric sessionRubric rubricForm rubricFile := by
    simp only [grade_post]
    by_cases h1 :
        ((newSessionRubric sessionRubric rubricForm rubricFile).getD []).isEmpty
    · rw [if_pos h1]
    · rw [if_neg h1]
      by_cases h2 : (effStudentText studentForm studentFile).isEmpty
      · rw [if_pos h2]
      · rw [if_neg h2]
  have hsnd : ∀ r s, (grade_post sessionRubric rubricForm studentForm rubricFile
      studentFile).2 = GradeOutcome.graded r s →
      (newSessionRubric sessionRubric rubricForm rubricFile).getD [] = r ∧
      ((newSessionRubric sessionRubric rubricForm rubricFile).getD
        []).isEmpty = false := by
    intro r s hg
    simp only [grade_post] at hg
    by_cases h1 :
        ((newSessionRubric sessionRubric rubricForm rubricFile).getD []).isEmpty
    · rw [if_pos h1] at hg
      exact absurd hg (by simp)
    · rw [if_neg h1] at hg
      by_cases h2 : (effStudentText studentForm studentFile).isEmpty
      · rw [if_pos h2] at hg
        exact absurd hg (by simp)
      · rw [if_neg h2] at hg
        simp only [Prod.snd] at hg
        injection hg with hr hs
        exact ⟨hr, by simpa using h1⟩
  refine ⟨?_, ?_, ?_⟩
  · intro hne
    rw [hfst]
    unfold newSessionRubric
    rw [if_neg (by simpa [List.isEmpty_iff] using hne)]
  · intro he
    rw [hfst]
    unfold newSessionRubric
    rw [if_pos (by simp [he])]
  · intro r s hg
    obtain ⟨hr, hne⟩ := hsnd r s hg
    constructor
    · rw [hfst]
      cases hns : newSessionRubric sessionRubric rubricForm rubricFile with
      | none =>
          rw [hns] at hne
          simp at hne
      | some v =>
          rw [hns] at hr
          simp at hr
          rw [hr]
    · intro he
      have hsess : newSessionRubric sessionRubric rubricForm rubricFile =
          sessionRubric := by
        unfold newSessionRubric
        rw [if_pos (by simp [he])]
      rw [hsess] at hr hne
      cases hs : sessionRubric with
      | none =>
          rw [hs] at hne
          simp at hne
      | some v =>
          rw [hs] at hr
          simp at hr
          rw [hr]

/-- C8 witness: a request supplying no rubric leaves a previously cached
rubric untouched. -/
theorem rubric_cache_frame_witness :
    (grade_post (some "old rubric".toList) [] "my essay".toList none none).1 =
      some "old rubric".toList :=
  (rubric_cache_frame (some "old rubric".toList) [] "my essay".toList none
    none).2.1 (by decide)
